import Mathlib

/-!
Verification of the BibTeX parser and publication renderer of a static
academic-portfolio website.  The parser (`src/js/bibtex-parser.js`) is a
regex-based scanner over the raw bibliography text; the renderer
(publications page script) formats author lists and re-serializes entries
as citation text.  This file gives a shallow embedding of that code:
JavaScript strings become `List Char`/`String`, the two regular
expressions of the parser are implemented as executable scanning
functions with the exact backtracking behaviour of the source patterns,
JavaScript objects (entries, the `typeMap` lookup) become ordered
association lists with property-lookup semantics, and
`Array.prototype.sort` becomes a stable merge sort driven by the
source's comparator (ECMAScript `SortCompare` maps a NaN comparator
result to `+0`; for a consistent comparator the ECMAScript result is
exactly the stable sort).
-/

namespace BibSite

/-- ECMAScript `\s` (WhiteSpace plus LineTerminator), as used by the
`\s*` pieces of the parser's regular expressions. -/
def jsIsSpace (c : Char) : Bool :=
  c == ' ' || c == '\t' || c == '\n' || c == '\r' ||
  c == '\x0b' || c == '\x0c' || c == '\u00A0' || c == '\uFEFF' ||
  c == '\u1680' || (decide ('\u2000' ≤ c) && decide (c ≤ '\u200A')) ||
  c == '\u2028' || c == '\u2029' || c == '\u202F' || c == '\u205F' ||
  c == '\u3000'

/-- ECMAScript LineTerminator: the characters that `.` does not match and
that `$` (with the `m` flag) matches before. -/
def jsIsLineTerm (c : Char) : Bool :=
  c == '\n' || c == '\r' || c == '\u2028' || c == '\u2029'

/-- ECMAScript `\w`: ASCII letters, digits and underscore. -/
def jsIsWordChar (c : Char) : Bool :=
  (decide ('a' ≤ c) && decide (c ≤ 'z')) ||
  (decide ('A' ≤ c) && decide (c ≤ 'Z')) ||
  (decide ('0' ≤ c) && decide (c ≤ '9')) || c == '_'

/-- JS `String.prototype.trim`: strip leading and trailing ECMAScript
whitespace from a character list. -/
def jsTrimL (cs : List Char) : List Char :=
  ((cs.dropWhile jsIsSpace).reverse.dropWhile jsIsSpace).reverse

/-- JS `String.prototype.trim` on `String`. -/
def jsTrim (s : String) : String := String.mk (jsTrimL s.toList)

/-- JS `String.prototype.toLowerCase` restricted to ASCII, which is all the
parser ever feeds it (entry types are `\w+` captures). -/
def jsToLower (s : String) : String := String.mk (s.toList.map Char.toLower)

/-- The statement `bibtex.replace(/%.*$/gm, '')` from `parse`: in every line, the first
`%` and everything after it up to (excluding) the next line terminator is
removed.  The `Bool` flag records whether the scanner is currently inside
a removed comment region of the current line. -/
def stripComments : Bool → List Char → List Char
  | _, [] => []
  | inComment, c :: cs =>
    if jsIsLineTerm c then c :: stripComments false cs
    else if inComment then stripComments true cs
    else if c = '%' then stripComments true cs
    else c :: stripComments false cs

/-- One raw `@`-block as captured by the entry regular expression
`@(\w+)\s*{\s*([^,]*),\s*([\s\S]*?)(?=\s*@|\s*$)`:
`btype` is capture 1, `key` capture 2, `body` capture 3 (all untrimmed,
exactly as matched). -/
structure RawBlock where
  btype : String
  key : String
  body : String
deriving DecidableEq, Repr

/-- The lookahead `(?=\s*@|\s*$)` of the entry regular expression
(no `m` flag, so `$` is end of input): from this position, a run of
whitespace is followed either by `@` or by the end of the input. -/
def lookaheadOK (cs : List Char) : Bool :=
  match cs.dropWhile jsIsSpace with
  | [] => true
  | c :: _ => c == '@'

/-- The lazy capture `([\s\S]*?)` of the entry regular expression: take
the shortest prefix after which the lookahead `(?=\s*@|\s*$)` holds.
Such a cut always exists (at the end of the input `\s*$` matches), so
the overall match never backtracks into the preceding greedy `\s*`.
Returns (capture 3, remainder of the input after the match). -/
def lazyBody : List Char → List Char × List Char
  | [] => ([], [])
  | c :: cs =>
    if lookaheadOK (c :: cs) then ([], c :: cs)
    else
      let p := lazyBody cs
      (c :: p.1, p.2)

/-- Attempt to match the entry regular expression anchored at the head of
`cs`.  Mirrors the pattern left to right: literal `@`, greedy `\w+`
(maximal run; `\w`, `\s` and `{` are pairwise disjoint so no
backtracking arises), `\s*`, literal `{`, greedy `\s*`, greedy `[^,]*`
(up to the first comma; fails if no comma follows anywhere), literal
`,`, greedy `\s*`, then the lazy body capture. -/
def matchEntryAt : List Char → Option (RawBlock × List Char)
  | '@' :: cs =>
    let w := cs.takeWhile jsIsWordChar
    if w.isEmpty then none
    else
      match (cs.dropWhile jsIsWordChar).dropWhile jsIsSpace with
      | '{' :: r2 =>
        let r3 := r2.dropWhile jsIsSpace
        let key := r3.takeWhile (fun c => c ≠ ',')
        match r3.dropWhile (fun c => c ≠ ',') with
        | ',' :: r4 =>
          let p := lazyBody (r4.dropWhile jsIsSpace)
          some (⟨String.mk w, String.mk key, String.mk p.1⟩, p.2)
        | _ => none
      | _ => none
  | _ => none

/-- The `entryRegex.exec` loop of `parse`: starting from the current
position, try to match at every successive index; on a match, emit the
block and resume scanning at the end of the match (`lastIndex`).  The
fuel argument only serves termination: every step consumes at least one
character (`matchEntryAt` consumes at least the `@`), so fuel
`length + 1` makes the scan exact. -/
def scanEntries : Nat → List Char → List RawBlock
  | 0, _ => []
  | _, [] => []
  | fuel + 1, c :: cs =>
    match matchEntryAt (c :: cs) with
    | some (b, rest) => b :: scanEntries fuel rest
    | none => scanEntries fuel cs

/-- All `@`-blocks of a character list, in match order. -/
def scanAll (cs : List Char) : List RawBlock :=
  scanEntries (cs.length + 1) cs

/-- The lazy value capture `(.*?)` of the field regular expression
`(\w+)\s*=\s*[{"](.*?)[\"}]` (no `s` flag, so `.` does not match line
terminators): take the shortest run of non-line-terminator characters
followed by one closing delimiter `"` or `}`.  The opening and closing
delimiter classes are independent, so mismatched pairs such as
`{value"` are accepted.  Returns (capture 2, remainder after the
closing delimiter), or `none` when a line terminator or the end of the
input is reached before any closing delimiter. -/
def lazyValue : List Char → Option (List Char × List Char)
  | [] => none
  | c :: cs =>
    if c = '"' || c = '}' then some ([], cs)
    else if jsIsLineTerm c then none
    else
      match lazyValue cs with
      | some (v, r) => some ((c :: v), r)
      | none => none

/-- Attempt to match the field regular expression anchored at the head of
`cs`: greedy `\w+` (maximal run), `\s*`, literal `=`, `\s*`, one opening
delimiter `{` or `"`, then the lazy value capture.  Returns the field
name (capture 1) and raw value (capture 2) with the remainder after the
match. -/
def matchFieldAt (cs : List Char) : Option ((List Char × List Char) × List Char) :=
  let w := cs.takeWhile jsIsWordChar
  if w.isEmpty then none
  else
    match (cs.dropWhile jsIsWordChar).dropWhile jsIsSpace with
    | '=' :: r2 =>
      match r2.dropWhile jsIsSpace with
      | c :: r3 =>
        if c = '{' || c = '"' then
          match lazyValue r3 with
          | some (v, rest) => some ((w, v), rest)
          | none => none
        else none
      | [] => none
    | _ => none

/-- JavaScript object property assignment `fields[k] = v` on an ordered
association list: an existing binding is updated in place, a new one is
appended. -/
def setField : List (String × String) → String → String → List (String × String)
  | [], k, v => [(k, v)]
  | (k', v') :: rest, k, v =>
    if k' = k then (k, v) :: rest else (k', v') :: setField rest k v

/-- The `fieldRegex.exec` loop of `parseFields`: scan for matches,
lower-case each field name, trim each value, and assign it into the
accumulated field object (later duplicates overwrite).  Fuel as in
`scanEntries`. -/
def scanFields : Nat → List Char → List (String × String) → List (String × String)
  | 0, _, acc => acc
  | _, [], acc => acc
  | fuel + 1, c :: cs, acc =>
    match matchFieldAt (c :: cs) with
    | some ((k, v), rest) =>
      scanFields fuel rest (setField acc (jsToLower (String.mk k)) (jsTrim (String.mk v)))
    | none => scanFields fuel cs acc

/-- Method `parseFields(content)`: the field object parsed from a block body, as
an ordered association list. -/
def parseFields (content : String) : List (String × String) :=
  scanFields (content.toList.length + 1) content.toList []

/-- One parsed entry.  The source builds it as the object spread
`{ type, citeKey, ...fields }`, so an entry is an ordered property list:
`type` and `citeKey` are assigned first and each parsed field is then
assigned in order (a field literally named `type` or `citeKey` would
overwrite the initial binding, exactly as the spread does). -/
structure Entry where
  props : List (String × String)
deriving DecidableEq, Repr

/-- JavaScript property read `entry[k]`: `some` value, or `none` for
`undefined`. -/
def getProp (e : Entry) (k : String) : Option String :=
  (e.props.find? (fun p => p.1 == k)).map Prod.snd

/-- The accepted entry types of `parse` (the `includes` list in the
source). -/
def acceptedTypes : List String :=
  ["article", "inproceedings", "conference", "book", "techreport",
   "phdthesis", "mastersthesis", "misc"]

/-- Build the entry object `{ type, citeKey, ...fields }` for one block:
type lower-cased, key trimmed, body trimmed and parsed into fields. -/
def blockEntry (b : RawBlock) : Entry :=
  ⟨(parseFields (jsTrim b.body)).foldl
    (fun acc kv => setField acc kv.1 kv.2)
    [("type", jsToLower b.btype), ("citeKey", jsTrim b.key)]⟩

/-- The per-block step of the `while` loop in `parse`: blocks whose
lower-cased type is outside `acceptedTypes` are skipped (pushed by
nobody, reported to nobody). -/
def entryOfBlock (b : RawBlock) : Option Entry :=
  if acceptedTypes.contains (jsToLower b.btype) then some (blockEntry b) else none

/-- The mutable state of a `BibtexParser` instance: `this.entries` and
`this.errors`. -/
structure ParserState where
  entries : List Entry
  errors : List String
deriving DecidableEq, Repr

/-- Method `parse(bibtex)`: reset both state lists, strip `%`-comments from the
whole input, scan for `@`-blocks, and keep the accepted ones in match
order.  Returns (the returned array, the state after the call).  The
previous state is discarded unread.  The `try`/`catch` in the loop is
dead code — no statement in the `try` block can throw (the three
captures always participate in a successful match and `parseFields`
only runs a regex loop) — so `this.errors` is always left empty. -/
def parse (_prev : ParserState) (input : String) : List Entry × ParserState :=
  let entries := (scanAll (stripComments false input.toList)).filterMap entryOfBlock
  (entries, ⟨entries, []⟩)

/-- JS `parseInt(s)` (radix unspecified): skip leading whitespace, read an
optional sign, detect a `0x`/`0X` hexadecimal prefix, then take the
longest run of digits; `none` is NaN.  (The JavaScript result is a
binary64 float; years are far below 2^53, where the float is exact, so
the value is modelled as an exact integer.) -/
def jsParseInt (s : String) : Option Int :=
  let cs := s.toList.dropWhile jsIsSpace
  let signed : Int × List Char :=
    match cs with
    | '+' :: r => (1, r)
    | '-' :: r => (-1, r)
    | _ => (1, cs)
  let digitsOf (base : Nat) (val : Char → Option Nat) (ds : List Char) : Option Int :=
    let run := ds.takeWhile (fun c => (val c).isSome)
    if run.isEmpty then none
    else some (signed.1 * Int.ofNat (run.foldl (fun a c => a * base + ((val c).getD 0)) 0))
  let decDigit (c : Char) : Option Nat :=
    if decide ('0' ≤ c) && decide (c ≤ '9') then some (c.toNat - '0'.toNat) else none
  let hexDigit (c : Char) : Option Nat :=
    if decide ('0' ≤ c) && decide (c ≤ '9') then some (c.toNat - '0'.toNat)
    else if decide ('a' ≤ c) && decide (c ≤ 'f') then some (c.toNat - 'a'.toNat + 10)
    else if decide ('A' ≤ c) && decide (c ≤ 'F') then some (c.toNat - 'A'.toNat + 10)
    else none
  match signed.2 with
  | '0' :: x :: r =>
    if x = 'x' || x = 'X' then digitsOf 16 hexDigit r
    else digitsOf 10 decDigit signed.2
  | _ => digitsOf 10 decDigit signed.2

/-- The fallback `a.year || '0'` from the comparator in `sortByYear`: a missing or
empty `year` property falls back to the string `'0'`; any other string
(numeric or not) is kept. -/
def jsYearStr (e : Entry) : String :=
  match getProp e "year" with
  | some y => if y == "" then "0" else y
  | none => "0"

/-- The parsed year used by the comparator; `none` is NaN. -/
def jsEffYear (e : Entry) : Option Int := jsParseInt (jsYearStr e)

/-- The value of the comparator `(a, b) => yearB - yearA` as consumed by
ECMAScript `SortCompare`, which turns a NaN comparator result into `+0`
(any NaN operand makes the subtraction NaN). -/
def sortCompare (a b : Entry) : Int :=
  match jsEffYear a, jsEffYear b with
  | some x, some y => y - x
  | _, _ => 0

/-- The ordering predicate of the modelled stable sort: keep `a` before
`b` exactly when `SortCompare(a, b) ≤ 0`. -/
def leJS (a b : Entry) : Bool := decide (sortCompare a b ≤ 0)

/-- Method `sortByYear()`: `this.entries.sort(comparator)` sorts the held array
in place and returns it.  For a consistent comparator, ECMAScript fully
determines the result (sorted and stable), which is exactly
`List.mergeSort`; when NaN comparisons make the comparator inconsistent
the ECMAScript order is implementation-defined and the stable merge
sort is the modelled choice (NaN comparisons behave as ties).  Returns
(the returned array, the state after the call). -/
def sortByYear (s : ParserState) : List Entry × ParserState :=
  let r := s.entries.mergeSort leJS
  (r, ⟨r, s.errors⟩)

/-- The value produced by the property read `typeMap[type]` in
`filterByType`. -/
inductive TypeMapVal where
  /-- One of the three own properties of the `typeMap` object literal. -/
  | arr : List String → TypeMapVal
  /-- A property inherited from `Object.prototype` through the prototype
  chain: a truthy function or object without an `includes` method. -/
  | inheritedObj : TypeMapVal
  /-- Value `undefined`: not an own property and not inherited. -/
  | absent : TypeMapVal
deriving DecidableEq, Repr

/-- The property names a plain object literal inherits from
`Object.prototype`; reading any of them yields a truthy non-array
value. -/
def objectProtoProps : List String :=
  ["constructor", "hasOwnProperty", "isPrototypeOf", "propertyIsEnumerable",
   "toLocaleString", "toString", "valueOf", "__defineGetter__",
   "__defineSetter__", "__lookupGetter__", "__lookupSetter__", "__proto__"]

/-- Lookup `typeMap[type]` with full JavaScript property-lookup semantics: the
three own properties, then the prototype chain, then `undefined`. -/
def typeMapGet (t : String) : TypeMapVal :=
  if t == "journal" then .arr ["article"]
  else if t == "conference" then .arr ["inproceedings", "conference"]
  else if t == "preprint" then .arr ["misc", "unpublished"]
  else if objectProtoProps.contains t then .inheritedObj
  else .absent

/-- Test `types.includes(entry.type)` from the filter callback: an entry whose
`type` property is absent (`undefined`) matches nothing. -/
def entryTypeIs (l : List String) (e : Entry) : Bool :=
  match getProp e "type" with
  | some t => l.contains t
  | none => false

/-- Method `filterByType(type)`: `'all'` returns the held array itself; an own
`typeMap` entry or a literal fallback filters by membership; a name
inherited from `Object.prototype` makes `typeMap[type] || [type]`
produce a truthy non-array, so `types.includes` is not a function —
but that `TypeError` is raised inside the `filter` callback, which
`Array.prototype.filter` invokes once per element: on an empty held
list the callback never runs and the method returns the (empty)
filtered array normally, while on a non-empty list the first
invocation throws.  The method assigns to no instance field, so the
state is returned unchanged on every path. -/
def filterByType (s : ParserState) (t : String) :
    Except String (List Entry) × ParserState :=
  if t == "all" then (.ok s.entries, s)
  else
    match typeMapGet t with
    | .arr l => (.ok (s.entries.filter (entryTypeIs l)), s)
    | .inheritedObj =>
      match s.entries with
      | [] => (.ok [], s)
      | _ :: _ => (.error "TypeError: types.includes is not a function", s)
    | .absent => (.ok (s.entries.filter (entryTypeIs [t])), s)

/-- The per-publication override object read from
`publication-config.json`; only the two author lists matter to the
author formatter.  A `none` field is an absent property, defaulted by
`|| []` in the source. -/
structure PubConfig where
  co_first_authors : Option (List String) := none
  corresponding_authors : Option (List String) := none
deriving DecidableEq, Repr

/-- One coauthor record from `coauthor-info.json`. -/
structure CoauthorRec where
  website : Option String := none
  affiliation : Option String := none
deriving DecidableEq, Repr

/-- JS `String.prototype.split` with a non-empty literal separator: cut at
every non-overlapping occurrence, left to right, keeping empty pieces.
Fuel as in `scanEntries` (every step consumes at least one character). -/
def jsSplitGo (sep : List Char) : Nat → List Char → List Char → List (List Char)
  | _, acc, [] => [acc.reverse]
  | 0, acc, rest => [acc.reverse ++ rest]
  | fuel + 1, acc, c :: cs =>
    if sep.isPrefixOf (c :: cs) then
      acc.reverse :: jsSplitGo sep fuel [] ((c :: cs).drop sep.length)
    else
      jsSplitGo sep fuel (c :: acc) cs

/-- The call `authors.split(' and ')` from `formatAuthorsWithLinks`. -/
def splitAuthors (s : String) : List String :=
  (jsSplitGo " and ".toList (s.toList.length + 1) [] s.toList).map String.mk

/-- JS `.join(', ')` on an array of strings. -/
def joinCommaSpace (l : List String) : String :=
  String.mk (List.intercalate ", ".toList (l.map String.toList))

/-- The callback body of `formatAuthorsWithLinks`: trim the name; bold
the one hardcoded distinguished name; append the co-first superscript
when the trimmed name is in `co_first_authors`; append the
corresponding-author superscript when it is in `corresponding_authors`;
finally wrap the result in a hyperlink when a coauthor record with a
truthy `website` exists for the trimmed name.  The four decorations are
applied independently, in this order. -/
def formatOneAuthor (author : String) (cfg : PubConfig)
    (coauthors : List (String × CoauthorRec)) : String :=
  let trimmedAuthor := jsTrim author
  let f0 :=
    if trimmedAuthor == "Chaofeng Chen" then
      "<strong>" ++ trimmedAuthor ++ "</strong>"
    else trimmedAuthor
  let f1 :=
    if (cfg.co_first_authors.getD []).contains trimmedAuthor then
      f0 ++ "<sup>*</sup>"
    else f0
  let f2 :=
    if (cfg.corresponding_authors.getD []).contains trimmedAuthor then
      f1 ++ "<sup>✉</sup>"
    else f1
  match (coauthors.find? (fun p => p.1 == trimmedAuthor)).map Prod.snd with
  | some ci =>
    match ci.website with
    | some w =>
      if w == "" then f2
      else
        "<a href=\"" ++ w ++ "\" target=\"_blank\" title=\"" ++
          (ci.affiliation.getD "") ++ "\">" ++ f2 ++ "</a>"
    | none => f2
  | none => f2

/-- Function `formatAuthorsWithLinks(authors, pubConfig)`: split the raw author
field on the literal separator `" and "`, decorate each name, and join
with `", "`.  The coauthor data is the `coauthors` map of the fetched
JSON (empty when the fetch failed or the file held no map). -/
def formatAuthorsWithLinks (authors : String) (cfg : PubConfig)
    (coauthors : List (String × CoauthorRec)) : String :=
  joinCommaSpace ((splitAuthors authors).map
    (fun author => formatOneAuthor author cfg coauthors))

/-- JavaScript truthiness of a possibly-absent string property: present
and non-empty. -/
def jsTruthy (o : Option String) : Bool :=
  match o with
  | some s => !(s == "")
  | none => false

/-- Template interpolation `${x}` of a possibly-absent string property
(`undefined` prints as the string `undefined`). -/
def jsStr (o : Option String) : String :=
  match o with
  | some s => s
  | none => "undefined"

/-- Template interpolation `${x || ''}`. -/
def jsOrEmpty (o : Option String) : String :=
  match o with
  | some s => s
  | none => ""

/-- One conditional line fragment
`${publication.f ? `f={${publication.f}},` : ''}` of the citation
template in `showBibtex` (`suffix` is the trailing comma, absent for
`publisher`), as a character list. -/
def condFieldL (e : Entry) (name : String) (suffix : String) : List Char :=
  match getProp e name with
  | some v =>
    if v == "" then []
    else name.toList ++ "=\x7b".toList ++ v.toList ++ "\x7d".toList ++ suffix.toList
  | none => []

/-- The `bibtexText` template literal of `showBibtex`, character for
character: `type` and `citeKey` are interpolated unconditionally,
`title` and `author` are always emitted with an `|| ''` fallback, and
the seven remaining fields are emitted only when truthy — but each of
those seven template lines keeps its two-space indent and newline even
when the fragment is empty. -/
def showBibtexTextL (e : Entry) : List Char :=
  "@".toList ++ (jsStr (getProp e "type")).toList ++
  "\x7b".toList ++ (jsStr (getProp e "citeKey")).toList ++
  ",\n  title=\x7b".toList ++ (jsOrEmpty (getProp e "title")).toList ++
  "\x7d,\n  author=\x7b".toList ++ (jsOrEmpty (getProp e "author")).toList ++
  "\x7d,\n  ".toList ++ condFieldL e "journal" "," ++
  "\n  ".toList ++ condFieldL e "booktitle" "," ++
  "\n  ".toList ++ condFieldL e "volume" "," ++
  "\n  ".toList ++ condFieldL e "number" "," ++
  "\n  ".toList ++ condFieldL e "pages" "," ++
  "\n  ".toList ++ condFieldL e "year" "," ++
  "\n  ".toList ++ condFieldL e "publisher" "" ++
  "\n\x7d".toList

/-- The generated citation text as a string. -/
def showBibtexText (e : Entry) : String := String.mk (showBibtexTextL e)

/-- Substring test (decidable stand-in for `String.includes`). -/
def strContains (needle hay : String) : Bool :=
  hay.toList.tails.any (fun t => needle.toList.isPrefixOf t)

/-! ### Supporting lemmas -/

/-- Evaluation of `List.mergeSort` on a two-element list (the definition
uses well-founded recursion, so concrete runs are evaluated through this
lemma). -/
theorem mergeSort_pair {α : Type} (le : α → α → Bool) (a b : α) :
    [a, b].mergeSort le = if le a b then [a, b] else [b, a] := by
  rw [List.mergeSort]
  simp [List.splitInTwo, List.merge]

/-- Lemma: `filterMap` of a guarded map is filter-then-map. -/
theorem filterMap_guard {α β : Type} (p : α → Bool) (f : α → β) (l : List α) :
    l.filterMap (fun b => if p b then some (f b) else none) =
      (l.filter p).map f := by
  induction l with
  | nil => rfl
  | cons a l ih => by_cases h : p a <;> simp [h, ih]

/-- The entry list returned by `parse` is exactly the accepted blocks of
the comment-stripped input, in match order, one entry per block. -/
theorem parse_entries_eq (prev : ParserState) (input : String) :
    (parse prev input).1 =
      ((scanAll (stripComments false input.toList)).filter
        (fun b => acceptedTypes.contains (jsToLower b.btype))).map blockEntry := by
  exact filterMap_guard (fun b => acceptedTypes.contains (jsToLower b.btype))
    blockEntry (scanAll (stripComments false input.toList))

/-- The remainder returned by `lazyBody` is no longer than its input. -/
theorem lazyBody_snd_length_le (cs : List Char) :
    (lazyBody cs).2.length ≤ cs.length := by
  induction cs with
  | nil => simp [lazyBody]
  | cons c cs ih =>
    simp only [lazyBody]
    split
    · simp
    · simpa using Nat.le_succ_of_le ih

/-- A successful entry match consumes at least one character, so the fuel
`length + 1` used by `scanAll` is always sufficient. -/
theorem matchEntryAt_rest_lt (cs : List Char) (b : RawBlock) (rest : List Char)
    (h : matchEntryAt cs = some (b, rest)) : rest.length < cs.length := by
  match cs with
  | [] => simp [matchEntryAt] at h
  | c :: cs' =>
    by_cases hc : c = '@'
    · subst hc
      simp only [matchEntryAt] at h
      split at h
      · simp at h
      · split at h
        next c1 r2 heq2 =>
          split at h
          next c2 r4 heq4 =>
            simp only [Option.some.injEq, Prod.mk.injEq] at h
            have h1 : rest = (lazyBody (r4.dropWhile jsIsSpace)).2 := h.2.symm
            have h2 : (lazyBody (r4.dropWhile jsIsSpace)).2.length ≤
                (r4.dropWhile jsIsSpace).length := lazyBody_snd_length_le _
            have h3 : (r4.dropWhile jsIsSpace).length ≤ r4.length :=
              (List.dropWhile_sublist _).length_le
            have h4 : (',' :: r4).length ≤
                ((r2.dropWhile jsIsSpace).dropWhile (fun c => c ≠ ',')).length := by
              rw [heq4]
            have h5 : ((r2.dropWhile jsIsSpace).dropWhile (fun c => c ≠ ',')).length ≤
                r2.length :=
              Nat.le_trans (List.dropWhile_sublist _).length_le
                (List.dropWhile_sublist _).length_le
            have h6 : ('{' :: r2).length ≤ cs'.length := by
              rw [← heq2]
              exact Nat.le_trans (List.dropWhile_sublist _).length_le
                (List.dropWhile_sublist _).length_le
            simp only [List.length_cons] at h4 h6
            rw [h1]
            simp only [List.length_cons]
            omega
          next => simp at h
        next => simp at h
    · have hnone : matchEntryAt (c :: cs') = none := by
        unfold matchEntryAt
        split
        next heq =>
          rw [List.cons.injEq] at heq
          exact absurd heq.1 hc
        next => rfl
      rw [hnone] at h
      simp at h

/-- Lemma: `scanEntries` does not depend on the fuel once the fuel exceeds the
input length. -/
theorem scanEntries_fuel_congr :
    ∀ (n : Nat) (cs : List Char), cs.length ≤ n → ∀ (f g : Nat),
      cs.length < f → cs.length < g → scanEntries f cs = scanEntries g cs := by
  intro n
  induction n with
  | zero =>
    intro cs hcs f g hf hg
    have hnil : cs = [] := List.length_eq_zero.mp (Nat.le_zero.mp hcs)
    subst hnil
    cases f with
    | zero => omega
    | succ f' =>
      cases g with
      | zero => omega
      | succ g' => rfl
  | succ n ih =>
    intro cs hcs f g hf hg
    cases cs with
    | nil =>
      cases f with
      | zero => omega
      | succ f' =>
        cases g with
        | zero => omega
        | succ g' => rfl
    | cons c cs' =>
      cases f with
      | zero => omega
      | succ f' =>
        cases g with
        | zero => omega
        | succ g' =>
          rcases hm : matchEntryAt (c :: cs') with _ | ⟨b, rest⟩
          · simp only [scanEntries, hm, List.length_cons] at *
            exact ih cs' (by omega) f' g' (by omega) (by omega)
          · have hlt := matchEntryAt_rest_lt _ _ _ hm
            simp only [scanEntries, hm, List.length_cons] at *
            rw [ih rest (by omega) f' g' (by omega) (by omega)]

/-- Any sufficient fuel computes `scanAll`. -/
theorem scanEntries_eq_scanAll (f : Nat) (cs : List Char) (h : cs.length < f) :
    scanEntries f cs = scanAll cs :=
  scanEntries_fuel_congr cs.length cs (Nat.le_refl _) f (cs.length + 1) h
    (Nat.lt_succ_self _)

/-- While inside a comment, `stripComments` drops everything up to the
next line terminator. -/
theorem stripComments_inComment (l : List Char) (t : Char) (r : List Char)
    (hl : ∀ c ∈ l, jsIsLineTerm c = false) (ht : jsIsLineTerm t = true) :
    stripComments true (l ++ t :: r) = t :: stripComments false r := by
  induction l with
  | nil => simp [stripComments, ht]
  | cons c l ih =>
    have hc := hl c (List.mem_cons_self c l)
    simp [stripComments, hc, ih (fun d hd => hl d (List.mem_cons_of_mem c hd))]

/-- While inside a comment, terminator-free input is dropped wholly. -/
theorem stripComments_true_no_term (l : List Char)
    (hl : ∀ c ∈ l, jsIsLineTerm c = false) :
    stripComments true l = [] := by
  induction l with
  | nil => rfl
  | cons c l ih =>
    have hc := hl c (List.mem_cons_self c l)
    simp [stripComments, hc, ih (fun d hd => hl d (List.mem_cons_of_mem c hd))]

/-- On a line without terminators followed by a terminator,
`stripComments` keeps exactly the part before the first `%` and then the
terminator, and continues independently on the rest of the input. -/
theorem stripComments_line (l : List Char) (t : Char) (r : List Char)
    (hl : ∀ c ∈ l, jsIsLineTerm c = false) (ht : jsIsLineTerm t = true) :
    stripComments false (l ++ t :: r) =
      l.takeWhile (fun c => c ≠ '%') ++ t :: stripComments false r := by
  induction l with
  | nil => simp [stripComments, ht]
  | cons c l ih =>
    have hc := hl c (List.mem_cons_self c l)
    have hl' : ∀ d ∈ l, jsIsLineTerm d = false :=
      fun d hd => hl d (List.mem_cons_of_mem c hd)
    by_cases hp : c = '%'
    · subst hp
      have h1 : jsIsLineTerm '%' = false := by decide
      simp [stripComments, h1, List.takeWhile_cons,
        stripComments_inComment l t r hl' ht]
    · simp [stripComments, hc, hp, List.takeWhile_cons, ih hl']

/-- On terminator-free input, `stripComments` is `takeWhile (≠ '%')`. -/
theorem stripComments_no_term (l : List Char)
    (hl : ∀ c ∈ l, jsIsLineTerm c = false) :
    stripComments false l = l.takeWhile (fun c => c ≠ '%') := by
  induction l with
  | nil => rfl
  | cons c l ih =>
    have hc := hl c (List.mem_cons_self c l)
    have hl' : ∀ d ∈ l, jsIsLineTerm d = false :=
      fun d hd => hl d (List.mem_cons_of_mem c hd)
    by_cases hp : c = '%'
    · subst hp
      have h1 : jsIsLineTerm '%' = false := by decide
      simp [stripComments, h1, List.takeWhile_cons,
        stripComments_true_no_term l hl']
    · simp [stripComments, hc, hp, List.takeWhile_cons, ih hl']

/-! ### Demonstration data -/

/-- Two `@`-blocks sharing the cite key `k1` (used for C3). -/
def sC3 : String :=
  "@article\x7bk1, title=\x7bA\x7d\x7d\n@article\x7bk1, title=\x7bB\x7d\x7d"

/-- The entry parsed from the first `k1` block. -/
def entC3a : Entry := ⟨[("type", "article"), ("citeKey", "k1"), ("title", "A")]⟩

/-- The entry parsed from the second `k1` block. -/
def entC3b : Entry := ⟨[("type", "article"), ("citeKey", "k1"), ("title", "B")]⟩

/-- An input whose single block has the unaccepted type `weird` (C5). -/
def sC5 : String := "@weird\x7bk, title=\x7bT\x7d\x7d"

/-- A non-trivial prior parser state (C6). -/
def stC6 : ParserState := ⟨[entC3a], ["stale error"]⟩

/-- An input with a `%` inside the `title` field value (C9). -/
def sC9 : String := "@article\x7bk,\n title=\x7bab%cd\x7d,\n year=\x7b2020\x7d\n\x7d"

/-- The single entry parsed from `sC9`: the `title` field is gone
entirely, only `year` survives. -/
def entC9 : Entry := ⟨[("type", "article"), ("citeKey", "k"), ("year", "2020")]⟩

/-! ### Claims -/

/-- Claim C3, counterexample: The claim says that for two `@`-blocks with
the same cite key the later block's fields fully replace the earlier
block's in the final held list.  On `sC3` (two `article` blocks keyed
`k1`, titles `A` and `B`) the parser instead pushes two separate
entries in consumption order: the held list has length 2, with the
earlier block's entry (title `A`) still present and distinct from the
later one. -/
theorem c3_counterexample :
    (parse ⟨[], []⟩ sC3).1 = [entC3a, entC3b] ∧
    getProp entC3a "citeKey" = some "k1" ∧
    getProp entC3b "citeKey" = some "k1" ∧
    entC3a ≠ entC3b ∧
    (parse ⟨[], []⟩ sC3).1.length ≠ 1 := by decide

/-- Claim C3, amended: Duplicate cite keys are not deduplicated: `parse`
emits exactly one entry per accepted block, in match order, regardless
of key collisions — on the duplicate-key input `sC3` both blocks appear
as separate held entries, the earlier one unreplaced. -/
theorem c3_amended :
    (∀ prev input, (parse prev input).1 =
      ((scanAll (stripComments false input.toList)).filter
        (fun b => acceptedTypes.contains (jsToLower b.btype))).map blockEntry) ∧
    (∀ prev input, (parse prev input).1.length =
      ((scanAll (stripComments false input.toList)).filter
        (fun b => acceptedTypes.contains (jsToLower b.btype))).length) ∧
    (parse ⟨[], []⟩ sC3).1 = [entC3a, entC3b] :=
  ⟨parse_entries_eq,
   fun prev input => by rw [parse_entries_eq prev input, List.length_map],
   by decide⟩

/-- Claim C5: A block whose lower-cased type is outside the accepted set
contributes nothing: the output is exactly the accepted blocks' entries
(in order) and the error list stays empty on every input.  On the
concrete input `sC5` a block is scanned (the scan is non-empty) yet the
result is the empty entry list and an empty error list. -/
theorem c5_unaccepted_dropped :
    (∀ prev input, (parse prev input).2.errors = []) ∧
    (∀ prev input, (parse prev input).1 =
      ((scanAll (stripComments false input.toList)).filter
        (fun b => acceptedTypes.contains (jsToLower b.btype))).map blockEntry) ∧
    scanAll (stripComments false sC5.toList) ≠ [] ∧
    parse ⟨[], []⟩ sC5 = ([], ⟨[], []⟩) :=
  ⟨fun _ _ => rfl, parse_entries_eq, by decide, by decide⟩

/-- Claim C6: On any input in which the block scanner finds no `@`-block,
`parse` returns the empty entry list and leaves the error list empty,
whatever entries or errors the parser held before the call (the state
is reset at the start of `parse`). -/
theorem c6_no_blocks (prev : ParserState) (input : String)
    (h : scanAll (stripComments false input.toList) = []) :
    parse prev input = ([], ⟨[], []⟩) := by
  simp only [parse]
  rw [h]
  rfl

/-- Witness for C6: a block-free input containing a comment, run against
a parser state still holding an entry and an error from a previous
parse. -/
theorem c6_no_blocks_witness :
    parse stC6 "plain text % no at-blocks here" = ([], ⟨[], []⟩) :=
  c6_no_blocks stC6 "plain text % no at-blocks here" (by decide)

/-- Claim C8: The field scanner treats the value delimiters as
interchangeable: `name = {value"` and `name = "value}` are both
accepted and yield the value `value`, exactly as the properly matched
pairs do, because the opening class is `{`-or-`"` and the closing class
is `"`-or-`}`. -/
theorem c8_mismatched_delims :
    parseFields "name = \x7bvalue\"" = [("name", "value")] ∧
    parseFields "name = \"value\x7d" = [("name", "value")] ∧
    parseFields "name = \x7bvalue\x7d" = [("name", "value")] ∧
    parseFields "name = \"value\"" = [("name", "value")] := by decide

/-- Claim C9, counterexample: The claim says a field value containing `%`
is truncated starting at the `%` (so `title={ab%cd},` would yield title
`ab`).  In fact stripping removes the `%` together with the rest of its
line — including the field's closing delimiter — and the value capture
of the field regex cannot cross the line terminator, so the `title`
field of `sC9` is dropped entirely: the parsed entry has no `title`
property at all (not the truncated value `ab`). -/
theorem c9_counterexample :
    (parse ⟨[], []⟩ sC9).1 = [entC9] ∧
    getProp entC9 "title" = none ∧
    getProp entC9 "year" = some "2020" := by decide

/-- Claim C9, amended: Comment stripping is applied to the whole input
before any block or field structure is recognized: per line, the first
`%` and everything after it up to the line terminator is removed
(`stripComments_line` / `stripComments_no_term` shapes), and block
scanning runs on the stripped text.  Consequently a `%` inside a field
value removes the value's closing delimiter, and since a field value
cannot span lines the whole field is dropped from the entry rather than
truncated (demonstrated on `sC9`). -/
theorem c9_amended :
    (∀ (l : List Char) (t : Char) (r : List Char),
      (∀ c ∈ l, jsIsLineTerm c = false) → jsIsLineTerm t = true →
      stripComments false (l ++ t :: r) =
        l.takeWhile (fun c => c ≠ '%') ++ t :: stripComments false r) ∧
    (∀ l : List Char, (∀ c ∈ l, jsIsLineTerm c = false) →
      stripComments false l = l.takeWhile (fun c => c ≠ '%')) ∧
    (∀ prev input, (parse prev input).1 =
      (scanAll (stripComments false input.toList)).filterMap entryOfBlock) ∧
    (parse ⟨[], []⟩ sC9).1 = [entC9] ∧
    getProp entC9 "title" = none :=
  ⟨stripComments_line, stripComments_no_term, fun _ _ => rfl, by decide, by decide⟩

/-- Witness for C9 (amended): the per-line characterization applied to
the line `ab%cd` followed by a newline and `ef`. -/
theorem c9_amended_witness :
    stripComments false ("ab%cd".toList ++ '\n' :: "ef".toList) =
      "ab%cd".toList.takeWhile (fun c => c ≠ '%') ++
        '\n' :: stripComments false "ef".toList :=
  c9_amended.1 "ab%cd".toList '\n' "ef".toList (by decide) (by decide)

/-- An entry with no `title` property (C2). -/
def entC2 : Entry := ⟨[("type", "misc"), ("citeKey", "k2"), ("author", "A")]⟩

/-- An entry carrying every template field except `booktitle` (C2). -/
def entC2full : Entry :=
  ⟨[("type", "article"), ("citeKey", "k"), ("title", "T"), ("author", "A"),
    ("journal", "J"), ("volume", "1"), ("number", "2"), ("pages", "3--4"),
    ("year", "2020"), ("publisher", "P")]⟩

/-- Claim C2, counterexample: The claim says any field whose value is
empty or absent is omitted from the citation text entirely, with no
bare `field={}` artifacts.  For an entry without a `title` property the
template emits `title={}` verbatim (the `title` and `author` lines have
no truthiness guard), so the artifact does appear. -/
theorem c2_counterexample :
    getProp entC2 "title" = none ∧
    strContains "title=\x7b\x7d" (showBibtexText entC2) = true := by decide

/-- Claim C2, amended: The citation text always contains the `citeKey`
interpolation verbatim, and the `title` and `author` values verbatim
whenever present; each of the seven guarded fields (journal, booktitle,
volume, number, pages, year, publisher) is omitted entirely when its
value is absent or empty (its fragment is the empty string, so no
`field={}` artifact arises for them) — but the unguarded `title` and
`author` lines are always emitted, producing `title={}` / `author={}`
artifacts when those fields are absent or empty, as the concrete
outputs for `entC2full` and `entC2` show. -/
theorem c2_amended :
    (∀ e : Entry, (jsStr (getProp e "citeKey")).toList <:+: showBibtexTextL e) ∧
    (∀ e : Entry, (jsOrEmpty (getProp e "title")).toList <:+: showBibtexTextL e) ∧
    (∀ e : Entry, (jsOrEmpty (getProp e "author")).toList <:+: showBibtexTextL e) ∧
    (∀ (e : Entry) (name suffix : String),
      jsTruthy (getProp e name) = false → condFieldL e name suffix = []) ∧
    showBibtexText entC2full =
      "@article\x7bk,\n  title=\x7bT\x7d,\n  author=\x7bA\x7d,\n  journal=\x7bJ\x7d,\n  \n  volume=\x7b1\x7d,\n  number=\x7b2\x7d,\n  pages=\x7b3--4\x7d,\n  year=\x7b2020\x7d,\n  publisher=\x7bP\x7d\n\x7d" ∧
    showBibtexText entC2 =
      "@misc\x7bk2,\n  title=\x7b\x7d,\n  author=\x7bA\x7d,\n  \n  \n  \n  \n  \n  \n  \n\x7d" := by
  refine ⟨?_, ?_, ?_, ?_, by decide, by decide⟩
  · intro e
    exact ⟨"@".toList ++ (jsStr (getProp e "type")).toList ++ "\x7b".toList,
      ",\n  title=\x7b".toList ++ (jsOrEmpty (getProp e "title")).toList ++
        "\x7d,\n  author=\x7b".toList ++ (jsOrEmpty (getProp e "author")).toList ++
        "\x7d,\n  ".toList ++ condFieldL e "journal" "," ++
        "\n  ".toList ++ condFieldL e "booktitle" "," ++
        "\n  ".toList ++ condFieldL e "volume" "," ++
        "\n  ".toList ++ condFieldL e "number" "," ++
        "\n  ".toList ++ condFieldL e "pages" "," ++
        "\n  ".toList ++ condFieldL e "year" "," ++
        "\n  ".toList ++ condFieldL e "publisher" "" ++
        "\n\x7d".toList,
      by simp [showBibtexTextL, List.append_assoc]⟩
  · intro e
    exact ⟨"@".toList ++ (jsStr (getProp e "type")).toList ++ "\x7b".toList ++
        (jsStr (getProp e "citeKey")).toList ++ ",\n  title=\x7b".toList,
      "\x7d,\n  author=\x7b".toList ++ (jsOrEmpty (getProp e "author")).toList ++
        "\x7d,\n  ".toList ++ condFieldL e "journal" "," ++
        "\n  ".toList ++ condFieldL e "booktitle" "," ++
        "\n  ".toList ++ condFieldL e "volume" "," ++
        "\n  ".toList ++ condFieldL e "number" "," ++
        "\n  ".toList ++ condFieldL e "pages" "," ++
        "\n  ".toList ++ condFieldL e "year" "," ++
        "\n  ".toList ++ condFieldL e "publisher" "" ++
        "\n\x7d".toList,
      by simp [showBibtexTextL, List.append_assoc]⟩
  · intro e
    exact ⟨"@".toList ++ (jsStr (getProp e "type")).toList ++ "\x7b".toList ++
        (jsStr (getProp e "citeKey")).toList ++ ",\n  title=\x7b".toList ++
        (jsOrEmpty (getProp e "title")).toList ++ "\x7d,\n  author=\x7b".toList,
      "\x7d,\n  ".toList ++ condFieldL e "journal" "," ++
        "\n  ".toList ++ condFieldL e "booktitle" "," ++
        "\n  ".toList ++ condFieldL e "volume" "," ++
        "\n  ".toList ++ condFieldL e "number" "," ++
        "\n  ".toList ++ condFieldL e "pages" "," ++
        "\n  ".toList ++ condFieldL e "year" "," ++
        "\n  ".toList ++ condFieldL e "publisher" "" ++
        "\n\x7d".toList,
      by simp [showBibtexTextL, List.append_assoc]⟩
  · intro e name suffix h
    unfold condFieldL
    match hv : getProp e name with
    | none => rfl
    | some v =>
      have hv2 : v = "" := by simpa [jsTruthy, hv] using h
      simp [hv2]

/-- Witness for C2 (amended): the guarded `journal` fragment of the
journal-less entry `entC2` is empty (no artifact). -/
theorem c2_amended_witness :
    condFieldL entC2 "journal" "," = [] :=
  c2_amended.2.2.2.1 entC2 "journal" "," (by decide)

/-- Claim C7: With author field `"A and B and C"`, `co_first_authors =
['A']` and `corresponding_authors = ['C']`, the rendered list marks `A`
with the co-first superscript, leaves `B` unmarked, and marks `C` with
the corresponding-author superscript.  A name in both lists receives
both markers cumulatively, and all four decorations stack on the
distinguished linked name.  In general the author field is split on the
literal `" and "` and each name is decorated independently. -/
theorem c7_author_markers :
    formatAuthorsWithLinks "A and B and C" ⟨some ["A"], some ["C"]⟩ [] =
      "A<sup>*</sup>, B, C<sup>✉</sup>" ∧
    formatAuthorsWithLinks "A" ⟨some ["A"], some ["A"]⟩ [] =
      "A<sup>*</sup><sup>✉</sup>" ∧
    formatAuthorsWithLinks "Chaofeng Chen and A"
        ⟨some ["Chaofeng Chen"], some ["Chaofeng Chen"]⟩
        [("Chaofeng Chen", ⟨some "https://site", some "Uni"⟩)] =
      "<a href=\"https://site\" target=\"_blank\" title=\"Uni\"><strong>Chaofeng Chen</strong><sup>*</sup><sup>✉</sup></a>, A" ∧
    (∀ (authors : String) (cfg : PubConfig)
        (coauthors : List (String × CoauthorRec)),
      formatAuthorsWithLinks authors cfg coauthors =
        joinCommaSpace ((splitAuthors authors).map
          (fun a => formatOneAuthor a cfg coauthors))) :=
  ⟨by decide, by decide, by decide, fun _ _ _ => rfl⟩

/-- An entry whose `type` is the string `toString` (C4). -/
def entC4 : Entry := ⟨[("type", "toString"), ("citeKey", "x1")]⟩

/-- A parser state holding `entC4` (C4). -/
def stC4 : ParserState := ⟨[entC4], []⟩

/-- Claim C4, counterexample: The claim says any string other than the
three aliases and `'all'` is treated as a literal type to match
exactly.  But `typeMap` is a plain object literal: for an argument
naming an inherited `Object.prototype` property — here `'toString'` —
the lookup `typeMap[type]` yields the inherited function, which is
truthy, so `|| [type]` keeps it and `types.includes(...)` throws a
`TypeError` instead of returning the (non-empty) matching subset. -/
theorem c4_counterexample :
    (filterByType stC4 "toString").1 =
      Except.error "TypeError: types.includes is not a function" ∧
    stC4.entries.filter (entryTypeIs ["toString"]) = [entC4] :=
  ⟨by rfl, by decide⟩

/-- Claim C4, amended: `filterByType 'all'` returns the full held list
unchanged; `'journal'` filters for type `article`; `'conference'` for
`inproceedings` or `conference`; `'preprint'` for `misc` or
`unpublished`; any other argument that is not the name of an inherited
`Object.prototype` property filters for that literal type.  For an
inherited property name (such as `toString`), `typeMap[type] || [type]`
keeps the inherited truthy non-array and the filter callback's
`types.includes` call throws a `TypeError` — but only when the callback
runs: on a non-empty held list the call throws instead of returning the
matching entries, while on an empty held list the callback is never
invoked and the empty array is returned normally. -/
theorem c4_amended (s : ParserState) (t : String) :
    (filterByType s "all").1 = Except.ok s.entries ∧
    (filterByType s "journal").1 =
      Except.ok (s.entries.filter (entryTypeIs ["article"])) ∧
    (filterByType s "conference").1 =
      Except.ok (s.entries.filter (entryTypeIs ["inproceedings", "conference"])) ∧
    (filterByType s "preprint").1 =
      Except.ok (s.entries.filter (entryTypeIs ["misc", "unpublished"])) ∧
    (t ∉ (["all", "journal", "conference", "preprint"] : List String) →
      t ∉ objectProtoProps →
      (filterByType s t).1 = Except.ok (s.entries.filter (entryTypeIs [t]))) ∧
    (t ≠ "all" → t ∈ objectProtoProps → s.entries ≠ [] →
      (filterByType s t).1 =
        Except.error "TypeError: types.includes is not a function") ∧
    (t ≠ "all" → t ∈ objectProtoProps → s.entries = [] →
      (filterByType s t).1 = Except.ok []) := by
  have hside : ∀ u : String, u ∈ objectProtoProps →
      u ≠ "journal" ∧ u ≠ "conference" ∧ u ≠ "preprint" ∧
      objectProtoProps.contains u = true := by
    decide
  refine ⟨rfl, rfl, rfl, rfl, ?_, ?_, ?_⟩
  · intro h1 h2
    simp only [List.mem_cons, List.not_mem_nil, or_false, not_or] at h1
    obtain ⟨ha, hj, hc, hp⟩ := h1
    have hcont : objectProtoProps.contains t = false := by
      simpa using h2
    simp [filterByType, typeMapGet, ha, hj, hc, hp, hcont, h2]
  · intro h1 h2 h3
    obtain ⟨hj, hc, hp, hcont⟩ := hside t h2
    match hE : s.entries with
    | [] => exact absurd hE h3
    | e :: es =>
      simp [filterByType, typeMapGet, h1, hj, hc, hp, hcont, h2, hE]
  · intro h1 h2 h3
    obtain ⟨hj, hc, hp, hcont⟩ := hside t h2
    simp [filterByType, typeMapGet, h1, hj, hc, hp, hcont, h2, h3]

/-- Witness for C4 (amended): the literal-type fallback at the concrete
argument `book`, on the concrete state `stC4`. -/
theorem c4_amended_witness :
    (filterByType stC4 "book").1 =
      Except.ok (stC4.entries.filter (entryTypeIs ["book"])) :=
  (c4_amended stC4 "book").2.2.2.2.1 (by decide) (by decide)

/-- A parser state with two entries of different types (C10). -/
def stC10 : ParserState :=
  ⟨[⟨[("type", "article"), ("citeKey", "p1")]⟩,
    ⟨[("type", "misc"), ("citeKey", "p2")]⟩], []⟩

/-- Claim C10: For every filter argument, `filterByType` returns the
parser state unchanged (the method assigns to no instance field and
`Array.prototype.filter` allocates a fresh array), and whenever it
returns normally the returned entries form a sublist of the held list:
the same entry objects, in the same relative order. -/
theorem c10_filter_frame (s : ParserState) (t : String) :
    (filterByType s t).2 = s ∧
    (∀ r, (filterByType s t).1 = Except.ok r → r.Sublist s.entries) := by
  constructor
  · unfold filterByType
    split
    · rfl
    · split
      · rfl
      · split <;> rfl
      · rfl
  · intro r h
    unfold filterByType at h
    split at h
    · cases h
      exact List.Sublist.refl _
    · split at h
      · cases h
        exact List.filter_sublist _
      · split at h
        · cases h
          exact List.nil_sublist _
        · cases h
      · cases h
        exact List.filter_sublist _

/-- Witness for C10: the `journal` filter on `stC10` returns a sublist
of the held entries. -/
theorem c10_filter_frame_witness :
    (stC10.entries.filter (entryTypeIs ["article"])).Sublist stC10.entries :=
  (c10_filter_frame stC10 "journal").2
    (stC10.entries.filter (entryTypeIs ["article"])) rfl

/-- The comparator key with the NaN case defaulted to `0`; on entries
whose effective year parses, this is exactly the comparator's year. -/
def effYear0 (e : Entry) : Int := (jsEffYear e).getD 0

/-- An entry with no `year` property: the comparator falls back to
`'0'`, which parses as `0` (C1). -/
def entC1a : Entry := ⟨[("type", "article"), ("citeKey", "a1")]⟩

/-- An entry with the parsable negative year `-1` (C1). -/
def entC1b : Entry := ⟨[("type", "article"), ("citeKey", "a2"), ("year", "-1")]⟩

/-- Claim C1, counterexample: The claim says an entry whose year is
missing is treated as year `0` **and placed after all entries with a
parsable numeric year**.  The first half is true, but year `0` is
simply sorted numerically: against an entry with the parsable year
`-1`, descending order keeps the missing-year entry (effective year
`0`) *before* the parsable-year entry, not after it. -/
theorem c1_counterexample :
    getProp entC1a "year" = none ∧
    jsEffYear entC1a = some 0 ∧
    jsEffYear entC1b = some (-1) ∧
    (sortByYear ⟨[entC1a, entC1b], []⟩).1 = [entC1a, entC1b] := by
  refine ⟨by decide, by decide, by decide, ?_⟩
  show [entC1a, entC1b].mergeSort leJS = [entC1a, entC1b]
  rw [mergeSort_pair]
  decide

/-- Claim C1, amended: `sortByYear` sorts the internally held list in
place (the updated state holds exactly the returned list, errors
untouched) and the result is a permutation of the held entries.  A
missing or empty year falls back to the string `'0'`.  When every held
entry has a parsable effective year (`parseInt` not NaN — note a
non-empty non-numeric year is NaN, compares as a tie, and is *not*
treated as year 0), the result is sorted by effective year descending —
so a missing-year entry is placed after larger years but before
negative ones — and the sort is stable: any pair in comparator order,
in particular any pair sharing a year, keeps its relative order. -/
theorem c1_amended (s : ParserState) :
    (sortByYear s).2.entries = (sortByYear s).1 ∧
    (sortByYear s).2.errors = s.errors ∧
    (sortByYear s).1.Perm s.entries ∧
    ((∀ e ∈ s.entries, (jsEffYear e).isSome) →
      (sortByYear s).1.Pairwise (fun a b => effYear0 b ≤ effYear0 a) ∧
      (∀ a b : Entry, effYear0 b ≤ effYear0 a → [a, b].Sublist s.entries →
        [a, b].Sublist (sortByYear s).1)) := by
  refine ⟨rfl, rfl, List.mergeSort_perm s.entries leJS, ?_⟩
  intro h
  have htrans : ∀ a b c : Entry,
      (fun a b => decide (effYear0 b ≤ effYear0 a)) a b →
      (fun a b => decide (effYear0 b ≤ effYear0 a)) b c →
      (fun a b => decide (effYear0 b ≤ effYear0 a)) a c := by
    intro a b c hab hbc
    simp only [decide_eq_true_eq] at *
    omega
  have htot : ∀ a b : Entry,
      (fun a b => decide (effYear0 b ≤ effYear0 a)) a b ||
      (fun a b => decide (effYear0 b ≤ effYear0 a)) b a := by
    intro a b
    simp only [Bool.or_eq_true, decide_eq_true_eq]
    omega
  have hagree : ∀ a ∈ s.entries, ∀ b ∈ s.entries,
      leJS a b = (fun a b => decide (effYear0 b ≤ effYear0 a)) a b := by
    intro a ha b hb
    obtain ⟨x, hx⟩ := Option.isSome_iff_exists.mp (h a ha)
    obtain ⟨y, hy⟩ := Option.isSome_iff_exists.mp (h b hb)
    simp only [leJS, sortCompare, hx, hy, effYear0, Option.getD_some]
    rw [decide_eq_decide]
    omega
  have hms : s.entries.mergeSort leJS =
      s.entries.mergeSort (fun a b => decide (effYear0 b ≤ effYear0 a)) := by
    have hmap := List.map_mergeSort (r := leJS)
      (s := fun a b => decide (effYear0 b ≤ effYear0 a)) (f := @id Entry)
      (l := s.entries) (fun a ha b hb => hagree a ha b hb)
    simpa using hmap
  have hsorted := @List.sorted_mergeSort Entry
    (fun a b => decide (effYear0 b ≤ effYear0 a)) htrans htot s.entries
  constructor
  · show (s.entries.mergeSort leJS).Pairwise _
    rw [hms]
    exact hsorted.imp (fun hab => by simpa using hab)
  · intro a b hab hsub
    show [a, b].Sublist (s.entries.mergeSort leJS)
    rw [hms]
    exact List.pair_sublist_mergeSort htrans htot (by simpa using hab) hsub

/-- An entry with year `2021` (C1 witness). -/
def entW1 : Entry := ⟨[("type", "article"), ("citeKey", "w1"), ("year", "2021")]⟩

/-- An entry with year `2019` (C1 witness). -/
def entW2 : Entry := ⟨[("type", "article"), ("citeKey", "w2"), ("year", "2019")]⟩

/-- Witness for C1 (amended): on a concrete two-entry state with
parsable years, the sorted result is pairwise descending. -/
theorem c1_amended_witness :
    (sortByYear ⟨[entW1, entW2], []⟩).1.Pairwise
      (fun a b => effYear0 b ≤ effYear0 a) :=
  ((c1_amended ⟨[entW1, entW2], []⟩).2.2.2 (by decide)).1

end BibSite
